import Mathlib

/-!
# Partitioned matrix multiply and benchmark sweep (`matrix_multiplication.cpp`)

A shallow embedding of the C++ program.

* `vector<vector<float>>` is a list of rows, `Mat α`.  The element type `α` is kept abstract:
  only `0`, `+` and `*` (and `1` for the benchmark inputs) are used, and no algebraic law is
  assumed unless a theorem says so, so that the order of the additions stays visible.
* C++ `int` values are `Int`.  Every intermediate value of the partitioning arithmetic lies
  in `[0, n]`, so no wrap-around can occur once `n` fits in an `int`.
* Indexing a vector outside its bounds and dividing by zero are undefined behaviour; the
  embedding returns `none` there.
* A `for (int i = lo; i < hi; ++i)` loop whose body never assigns `i` is a monadic fold
  over `intRange lo hi`.
* The workers of `matrixMultiplyThreadPool` are run to completion one after the other;
  `runWorkers` takes the order as an argument, so that a statement can range over every
  order.  Interleavings below the granularity of a worker are not modelled.
* Standard output and the error stream are lists of finished lines; the operating system and
  the clock are inputs (`Env`).
-/

namespace MatMul

/-- A matrix as the program stores it: a vector of rows. -/
abbrev Mat (α : Type) := List (List α)

/-- The expression `M[i][j]` read as a value; `none` when an index is out of bounds. -/
def readCell {α : Type} (M : Mat α) (i j : Int) : Option α :=
  if i < 0 ∨ j < 0 then none
  else match M[i.toNat]? with
    | none => none
    | some row => row[j.toNat]?

/-- The assignment `M[i][j] = v`; `none` when an index is out of bounds. -/
def writeCell {α : Type} (M : Mat α) (i j : Int) (v : α) : Option (Mat α) :=
  if i < 0 ∨ j < 0 then none
  else match M[i.toNat]? with
    | none => none
    | some row =>
      if j.toNat < row.length then some (M.set i.toNat (row.set j.toNat v)) else none

/-- The values taken by the counter of `for (int i = lo; i < hi; ++i)`, in order. -/
def intRange (lo hi : Int) : List Int :=
  (List.range (hi - lo).toNat).map (fun (t : Nat) => lo + (t : Int))

/-- Line 19: `C[i][j] += A[i][k] * B[k][j];`. -/
def innerStep {α : Type} [Add α] [Mul α] (A B : Mat α) (i j : Int) (C : Mat α) (k : Int) :
    Option (Mat α) := do
  let c ← readCell C i j
  let a ← readCell A i k
  let b ← readCell B k j
  writeCell C i j (c + a * b)

/-- Lines 17-20: the body of the `j` loop. -/
def cellStep {α : Type} [Zero α] [Add α] [Mul α] (A B : Mat α) (n i : Int) (C : Mat α)
    (j : Int) : Option (Mat α) := do
  let C ← writeCell C i j 0
  (intRange 0 n).foldlM (innerStep A B i j) C

/-- Lines 16-21: the body of the `i` loop. -/
def rowStep {α : Type} [Zero α] [Add α] [Mul α] (A B : Mat α) (n : Int) (C : Mat α)
    (i : Int) : Option (Mat α) :=
  (intRange 0 n).foldlM (cellStep A B n i) C

/-- The function `matrixMultiplyPartial` (lines 13-23); the result is the new content
of `C`. -/
def matrixMultiplyPartial {α : Type} [Zero α] [Add α] [Mul α]
    (A B C : Mat α) (startRow endRow : Int) : Option (Mat α) :=
  let n : Int := (A.length : Int)
  (intRange startRow endRow).foldlM (rowStep A B n) C

/-- Lines 32-33: the row range `(startRow, endRow)` computed for worker `i`. -/
def workerRange (n numThreads i : Int) : Int × Int :=
  let rowsPerThread := Int.tdiv n numThreads
  let startRow := i * rowsPerThread
  let endRow := if i = numThreads - 1 then n else startRow + rowsPerThread
  (startRow, endRow)

/-- Lines 31-35: the ranges of the spawned workers, in spawn order. -/
def workerRanges (n numThreads : Int) : List (Int × Int) :=
  (intRange 0 numThreads).map (workerRange n numThreads)

/-- Workers run to completion one after the other, in the order of `tasks`. -/
def runWorkers {α : Type} [Zero α] [Add α] [Mul α]
    (A B : Mat α) (tasks : List (Int × Int)) (C : Mat α) : Option (Mat α) :=
  tasks.foldlM (fun C t => matrixMultiplyPartial A B C t.1 t.2) C

/-- The function `matrixMultiplyThreadPool` (lines 26-40), its workers run in spawn order;
`n / numThreads` with `numThreads = 0` is undefined. -/
def matrixMultiplyThreadPool {α : Type} [Zero α] [Add α] [Mul α]
    (A B C : Mat α) (numThreads : Int) : Option (Mat α) :=
  if numThreads = 0 then none
  else runWorkers A B (workerRanges (A.length : Int) numThreads) C

/-- An `n`-by-`n` matrix: `n` rows of `n` entries each. -/
def IsSquare {α : Type} (n : Nat) (M : Mat α) : Prop :=
  M.length = n ∧ ∀ row ∈ M, row.length = n

instance {α : Type} (n : Nat) (M : Mat α) : Decidable (IsSquare n M) := by
  unfold IsSquare
  infer_instance

/-- The entry `M[i][k]` of a well-formed matrix (`0` outside it). -/
def entry {α : Type} [Zero α] (M : Mat α) (i k : Nat) : α :=
  (M.getD i []).getD k 0

/-- The sum over `k = 0..n-1`, added in ascending `k` starting from `0`, of
`A[i][k] * B[k][j]`. -/
def dotAscending {α : Type} [Zero α] [Add α] [Mul α] (A B : Mat α) (n i j : Nat) : α :=
  (List.range n).foldl (fun acc k => acc + entry A i k * entry B k j) 0

/-- Row `i` of the product: its `j`-th entry is `dotAscending A B n i j`. -/
def productRow {α : Type} [Zero α] [Add α] [Mul α] (A B : Mat α) (n i : Nat) : List α :=
  (List.range n).map (dotAscending A B n i)

/-- The product matrix: its `i`-th row is `productRow A B n i`. -/
def productMatrix {α : Type} [Zero α] [Add α] [Mul α] (A B : Mat α) (n : Nat) : Mat α :=
  (List.range n).map (productRow A B n)

/-- The vector `vector<vector<float>>(size, vector<float>(size, v))`. -/
def constMatrix {α : Type} (size : Nat) (v : α) : Mat α :=
  List.replicate size (List.replicate size v)

/-- The list `l` after the assignments `l[x] = f x` for the indices `x` of `xs`, in order. -/
def overwrite {β : Type} (f : Nat → β) (xs : List Nat) (l : List β) : List β :=
  xs.foldl (fun l x => l.set x (f x)) l

/-- The rows written by a list of workers, in the order the workers run. -/
def rowsOf (tasks : List (Int × Int)) : List Nat :=
  tasks.flatMap (fun t => (intRange t.1 t.2).map Int.toNat)

/-! ### The benchmark driver

The operating system and the clock are inputs of the program: `Env` fixes the outcome of
every `sched_setaffinity` call and the duration measured by every `benchmark` call, by the
number of earlier calls.  `τ` stands for `double`. -/

/-- The answers of the environment. -/
structure Env (τ : Type) where
  /-- Outcome of the `k`-th `sched_setaffinity` call on a CPU set: return value and `errno`. -/
  sched_setaffinity : Nat → List Int → Int × Nat
  /-- The text `strerror` gives for an error number. -/
  strerror : Nat → String
  /-- The duration measured by the `k`-th `benchmark` call. -/
  elapsed : Nat → τ
  /-- The text `operator<<` writes for a `double`. -/
  showDouble : τ → String

/-- The state of the process seen from outside.  A stream is the list of its finished
lines (those ended by `endl`); `stdoutLine` is the unfinished line of `cout`.
`affinityCalls` counts the `sched_setaffinity` calls and `benchmarkCalls` lists the
arguments `(size, numThreads)` of the `benchmark` calls made so far. -/
structure World where
  stdout : List String
  stdoutLine : String
  stderr : List String
  affinityCalls : Nat
  benchmarkCalls : List (Int × Int)

/-- The state at process start. -/
def World.init : World :=
  { stdout := [], stdoutLine := "", stderr := [], affinityCalls := 0, benchmarkCalls := [] }

/-- The statement `cout << s`. -/
def World.cout (w : World) (s : String) : World :=
  { w with stdoutLine := w.stdoutLine ++ s }

/-- The statement `cout << endl`. -/
def World.endl (w : World) : World :=
  { w with stdout := w.stdout ++ [w.stdoutLine], stdoutLine := "" }

/-- The statement `cerr << s << endl`. -/
def World.cerrLine (w : World) (s : String) : World :=
  { w with stderr := w.stderr ++ [s] }

/-- The function `benchmark` (lines 43-54): the measured duration and the new state. -/
def benchmark (α : Type) [Zero α] [One α] [Add α] [Mul α] {τ : Type} (env : Env τ)
    (size numThreads : Int) (w : World) : Option (τ × World) :=
  let call := w.benchmarkCalls.length
  let w := { w with benchmarkCalls := w.benchmarkCalls ++ [(size, numThreads)] }
  if size < 0 then none
  else
    let A : Mat α := constMatrix size.toNat 1
    let B : Mat α := constMatrix size.toNat 1
    let C : Mat α := constMatrix size.toNat 0
    match matrixMultiplyThreadPool A B C numThreads with
    | none => none
    | some _ => some (env.elapsed call, w)

/-- The function `setCpuAffinity` (lines 57-68). -/
def setCpuAffinity {τ : Type} (env : Env τ) (cores : List Int) (w : World) : World :=
  let cpuset : List Int := cores.foldl (fun cpuset core => cpuset ++ [core]) []
  let outcome := env.sched_setaffinity w.affinityCalls cpuset
  let w := { w with affinityCalls := w.affinityCalls + 1 }
  if outcome.1 ≠ 0 then
    w.cerrLine ("Error setting CPU affinity: " ++ env.strerror outcome.2)
  else w

/-- The vector `activeCores(cores.begin(), cores.begin() + numThreads)` of line 75; `none`
when the range leaves `cores`. -/
def firstCores (cores : List Int) (numThreads : Int) : Option (List Int) :=
  if 0 ≤ numThreads ∧ numThreads.toNat ≤ cores.length then some (cores.take numThreads.toNat)
  else none

/-- Line 71: the sizes of the sweep. -/
def sizes : List Int := [100, 200, 300, 400, 500, 600, 700, 800, 900, 1000]

/-- Lines 79-83: the output statements of one measurement. -/
def printRecord {τ : Type} (env : Env τ) (activeCores : List Int) (size numThreads : Int)
    (time : τ) (w : World) : World :=
  let w := w.cout "Cores: "
  let w := activeCores.foldl (fun w core => (w.cout (toString core)).cout " ") w
  let w := w.cout ", Size: "
  let w := w.cout (toString size)
  let w := w.cout "x"
  let w := w.cout (toString size)
  let w := w.cout ", Threads: "
  let w := w.cout (toString numThreads)
  let w := w.cout ", Time: "
  let w := w.cout (env.showDouble time)
  let w := w.cout " seconds"
  w.endl

/-- Line 74: the output statement at the start of a thread count. -/
def printHeader (coreType : String) (numThreads : Int) (w : World) : World :=
  let w := w.cout "Benchmarking "
  let w := w.cout coreType
  let w := w.cout " cores with "
  let w := w.cout (toString numThreads)
  let w := w.cout " threads"
  w.endl

/-- Lines 78-83: the body of the loop over `sizes`. -/
def sizeStep (α : Type) [Zero α] [One α] [Add α] [Mul α] {τ : Type} (env : Env τ)
    (activeCores : List Int) (numThreads : Int) (w : World) (size : Int) : Option World := do
  let (time, w) ← benchmark α env size numThreads w
  pure (printRecord env activeCores size numThreads time w)

/-- Lines 74-84: the body of the loop over `numThreads`. -/
def threadStep (α : Type) [Zero α] [One α] [Add α] [Mul α] {τ : Type} (env : Env τ)
    (cores : List Int) (coreType : String) (w : World) (numThreads : Int) : Option World := do
  let w := printHeader coreType numThreads w
  let activeCores ← firstCores cores numThreads
  let w := setCpuAffinity env activeCores w
  sizes.foldlM (sizeStep α env activeCores numThreads) w

/-- The function `benchmarkCoreType` (lines 70-86). -/
def benchmarkCoreType (α : Type) [Zero α] [One α] [Add α] [Mul α] {τ : Type} (env : Env τ)
    (cores : List Int) (coreType : String) (w : World) : Option World :=
  (intRange 1 ((cores.length : Int) + 1)).foldlM (threadStep α env cores coreType) w

/-- The function `main` (lines 88-98): the exit code and the final state. -/
def main (α : Type) [Zero α] [One α] [Add α] [Mul α] {τ : Type} (env : Env τ) :
    Option (Int × World) := do
  let efficiency_cores : List Int := [0, 1, 2, 3]
  let performance_cores : List Int := [4, 5]
  let prime_cores : List Int := [6, 7]
  let w ← benchmarkCoreType α env efficiency_cores "high-efficiency (Cortex-A55)" World.init
  let w ← benchmarkCoreType α env performance_cores "high-performance (Cortex-A78)" w
  let w ← benchmarkCoreType α env prime_cores "prime (Cortex-X1)" w
  pure (0, w)

/-! ### The effect of the driver, without the error cases -/

/-- The state after `benchmark` has returned. -/
def benchmarkEffect (size numThreads : Int) (w : World) : World :=
  { w with benchmarkCalls := w.benchmarkCalls ++ [(size, numThreads)] }

/-- The state after one pass of the loop over `sizes`. -/
def sizeEffect {τ : Type} (env : Env τ) (activeCores : List Int) (numThreads : Int)
    (w : World) (size : Int) : World :=
  printRecord env activeCores size numThreads (env.elapsed w.benchmarkCalls.length)
    (benchmarkEffect size numThreads w)

/-- The state after `setCpuAffinity` has returned. -/
def affinityEffect {τ : Type} (env : Env τ) (cores : List Int) (w : World) : World :=
  { w with
    affinityCalls := w.affinityCalls + 1
    stderr := w.stderr ++
      (if (env.sched_setaffinity w.affinityCalls cores).1 ≠ 0 then
        ["Error setting CPU affinity: "
          ++ env.strerror (env.sched_setaffinity w.affinityCalls cores).2]
      else []) }

/-- The state after one pass of the loop over `numThreads`. -/
def threadEffect {τ : Type} (env : Env τ) (cores : List Int) (coreType : String)
    (w : World) (numThreads : Int) : World :=
  sizes.foldl (sizeEffect env (cores.take numThreads.toNat) numThreads)
    (affinityEffect env (cores.take numThreads.toNat) (printHeader coreType numThreads w))

/-- The state after `benchmarkCoreType` has returned. -/
def coreTypeEffect {τ : Type} (env : Env τ) (cores : List Int) (coreType : String)
    (w : World) : World :=
  (intRange 1 ((cores.length : Int) + 1)).foldl (threadEffect env cores coreType) w

/-- The state when `main` returns. -/
def mainEffect {τ : Type} (env : Env τ) : World :=
  coreTypeEffect env [6, 7] "prime (Cortex-X1)"
    (coreTypeEffect env [4, 5] "high-performance (Cortex-A78)"
      (coreTypeEffect env [0, 1, 2, 3] "high-efficiency (Cortex-A55)" World.init))

/-! ### The output format and the order of the sweep, as the specification words them -/

/-- A finished line of standard output. -/
inductive OutLine (τ : Type) where
  | header (coreType : String) (numThreads : Int)
  | record (activeCores : List Int) (size numThreads : Int) (time : τ)

/-- Each core id followed by one space. -/
def coresText : List Int → String
  | [] => ""
  | core :: cores => toString core ++ " " ++ coresText cores

/-- The text of a line:
`Benchmarking <cluster-label> cores with <T> threads` and
`Cores: <id> <id> ... , Size: <n>x<n>, Threads: <T>, Time: <seconds> seconds`. -/
def OutLine.render {τ : Type} (showDouble : τ → String) : OutLine τ → String
  | .header coreType numThreads =>
    "Benchmarking " ++ coreType ++ " cores with " ++ toString numThreads ++ " threads"
  | .record activeCores size numThreads time =>
    "Cores: " ++ coresText activeCores ++ ", Size: " ++ toString size ++ "x" ++ toString size
      ++ ", Threads: " ++ toString numThreads ++ ", Time: " ++ showDouble time ++ " seconds"

/-- The result record `(active core ids, matrix size, thread count)` of a line. -/
def OutLine.toRecord {τ : Type} : OutLine τ → Option (List Int × Int × Int)
  | .header _ _ => none
  | .record activeCores size numThreads _ => some (activeCores, size, numThreads)

/-- Whether a line is a `Benchmarking ...` line. -/
def OutLine.isHeader {τ : Type} : OutLine τ → Bool
  | .header _ _ => true
  | .record _ _ _ _ => false

/-- The result records of a list of lines, in order. -/
def recordsOf {τ : Type} (lines : List (OutLine τ)) : List (List Int × Int × Int) :=
  lines.filterMap OutLine.toRecord

/-- The three clusters in their declared order, with their labels. -/
def clusters : List (List Int × String) :=
  [([0, 1, 2, 3], "high-efficiency (Cortex-A55)"),
   ([4, 5], "high-performance (Cortex-A78)"),
   ([6, 7], "prime (Cortex-X1)")]

/-- The thread counts `1, 2, ..., |cores|`, ascending. -/
def threadCounts (cores : List Int) : List Nat :=
  (List.range cores.length).map (fun t => t + 1)

/-- The records of the sweep: for each cluster in order, for each thread count `T`
ascending, for each size ascending, `(first T ids of the cluster, size, T)`. -/
def expectedRecords : List (List Int × Int × Int) :=
  clusters.flatMap fun c =>
    (threadCounts c.1).flatMap fun T =>
      sizes.map fun size => (c.1.take T, size, (T : Int))

/-- The pairs of a cluster and a thread count of the sweep, in order:
`(label, active cores, thread count)`. -/
def sweepBlocks : List (String × List Int × Int) :=
  clusters.flatMap fun c =>
    (threadCounts c.1).map fun T => (c.2, c.1.take T, (T : Int))

/-- The lines of the sweep: for each pair of a cluster and a thread count one
`Benchmarking` line, then one `Cores:` line per size; the `k`-th measurement shows the
`k`-th measured duration. -/
def sweepLines {τ : Type} (elapsed : Nat → τ) : List (OutLine τ) :=
  sweepBlocks.enum.flatMap fun b =>
    OutLine.header b.2.1 b.2.2.2 ::
      sizes.enum.map fun s =>
        OutLine.record b.2.2.1 s.2 b.2.2.2 (elapsed (sizes.length * b.1 + s.1))

/-- The output as one two-line block per combination of cluster, thread count and size: a
`Benchmarking` line followed by a `Cores:` line. -/
def twoLineBlocks {τ : Type} (elapsed : Nat → τ) : List (OutLine τ) :=
  sweepBlocks.enum.flatMap fun b =>
    sizes.enum.flatMap fun s =>
      [OutLine.header b.2.1 b.2.2.2,
       OutLine.record b.2.2.1 s.2 b.2.2.2 (elapsed (sizes.length * b.1 + s.1))]

/-- An environment in which every affinity call succeeds and every measurement reads 0. -/
def quietEnv : Env Nat :=
  { sched_setaffinity := fun _ _ => (0, 0)
    strerror := fun _ => ""
    elapsed := fun _ => 0
    showDouble := fun t => toString t }

/-- An environment in which every affinity call fails with error 22. -/
def failingEnv : Env Nat :=
  { sched_setaffinity := fun _ _ => (-1, 22)
    strerror := fun _ => "Invalid argument"
    elapsed := fun _ => 0
    showDouble := fun t => toString t }

/-- The `Cores:` lines of the sizes `szs`, the first of them showing the `k`-th duration. -/
def recordLines {τ : Type} (elapsed : Nat → τ) (activeCores : List Int) (numThreads : Int) :
    Nat → List Int → List (OutLine τ)
  | _, [] => []
  | k, size :: szs =>
    OutLine.record activeCores size numThreads (elapsed k)
      :: recordLines elapsed activeCores numThreads (k + 1) szs

/-- The lines of the thread counts `ts` of one cluster, the first measurement showing the
`k`-th duration. -/
def blockLines {τ : Type} (elapsed : Nat → τ) (cores : List Int) (coreType : String) :
    Nat → List Int → List (OutLine τ)
  | _, [] => []
  | k, numThreads :: ts =>
    (OutLine.header coreType numThreads
      :: recordLines elapsed (cores.take numThreads.toNat) numThreads k sizes)
      ++ blockLines elapsed cores coreType (k + sizes.length) ts

/-- The line `setCpuAffinity` writes to the error stream for an outcome, if any. -/
def affinityError {τ : Type} (env : Env τ) (k : Nat) (cores : List Int) : List String :=
  if (env.sched_setaffinity k cores).1 ≠ 0 then
    ["Error setting CPU affinity: " ++ env.strerror (env.sched_setaffinity k cores).2]
  else []

/-- The error lines of the thread counts `ts` of one cluster, the first affinity call
being the `k`-th. -/
def errorLines {τ : Type} (env : Env τ) (cores : List Int) : Nat → List Int → List String
  | _, [] => []
  | k, numThreads :: ts =>
    affinityError env k (cores.take numThreads.toNat) ++ errorLines env cores (k + 1) ts

/-- The lines of the error stream after the sweep. -/
def sweepErrors {τ : Type} (env : Env τ) : List String :=
  errorLines env [0, 1, 2, 3] 0 [1, 2, 3, 4] ++ (errorLines env [4, 5] 4 [1, 2]
    ++ errorLines env [6, 7] 6 [1, 2])

/-! ## The row partition -/

theorem intRange_length (lo hi : Int) : (intRange lo hi).length = (hi - lo).toNat := by
  simp [intRange]

theorem intRange_getElem? (lo hi : Int) (i : Nat) :
    (intRange lo hi)[i]? = if i < (hi - lo).toNat then some (lo + (i : Int)) else none := by
  unfold intRange
  rw [List.getElem?_map]
  by_cases h : i < (hi - lo).toNat
  · simp [h, List.getElem?_range h]
  · have h2 : (List.range (hi - lo).toNat)[i]? = none := by
      apply List.getElem?_eq_none
      simpa using h
    simp [h, h2]

theorem workerRanges_length (n W : Int) : (workerRanges n W).length = W.toNat := by
  simp [workerRanges, intRange_length]

theorem workerRanges_getElem? (n W : Int) (i : Nat) :
    (workerRanges n W)[i]? = if i < W.toNat then some (workerRange n W (i : Int)) else none := by
  unfold workerRanges
  rw [List.getElem?_map, intRange_getElem?]
  by_cases h : i < W.toNat <;> simp [h]

theorem tdiv_facts (n W : Int) (hn : 0 ≤ n) (hW : 1 ≤ W) :
    0 ≤ Int.tdiv n W ∧ W * Int.tdiv n W ≤ n ∧ n < W * Int.tdiv n W + W := by
  have hW0 : 0 ≤ W := by omega
  rw [Int.tdiv_eq_ediv hn hW0]
  have h1 := Int.emod_add_ediv n W
  have h2 := Int.emod_nonneg n (show W ≠ 0 by omega)
  have h3 := Int.emod_lt_of_pos n (show 0 < W by omega)
  have h4 : 0 ≤ n / W := Int.ediv_nonneg hn hW0
  refine ⟨h4, ?_, ?_⟩ <;> omega

theorem workerRange_fst (n W i : Int) : (workerRange n W i).1 = i * Int.tdiv n W := rfl

theorem workerRange_snd (n W i : Int) :
    (workerRange n W i).2 = if i = W - 1 then n else i * Int.tdiv n W + Int.tdiv n W := rfl

theorem workerRange_inside (n W i r : Int) (hn : 0 ≤ n) (hW : 1 ≤ W) (hi0 : 0 ≤ i) (hiW : i < W)
    (h1 : (workerRange n W i).1 ≤ r) (h2 : r < (workerRange n W i).2) : 0 ≤ r ∧ r < n := by
  obtain ⟨hq, hlo, _⟩ := tdiv_facts n W hn hW
  rw [workerRange_fst] at h1
  rw [workerRange_snd] at h2
  have hs : 0 ≤ i * Int.tdiv n W := Int.mul_nonneg hi0 hq
  refine ⟨by omega, ?_⟩
  by_cases hl : i = W - 1
  · simpa [hl] using h2
  · rw [if_neg hl] at h2
    have h3 : (i + 1) * Int.tdiv n W ≤ W * Int.tdiv n W :=
      Int.mul_le_mul_of_nonneg_right (by omega) hq
    have h4 : (i + 1) * Int.tdiv n W = i * Int.tdiv n W + Int.tdiv n W := by ring
    omega

theorem workerRange_exists (n W r : Int) (hn : 0 ≤ n) (hW : 1 ≤ W) (hr0 : 0 ≤ r) (hrn : r < n) :
    ∃ i : Int, 0 ≤ i ∧ i < W ∧ (workerRange n W i).1 ≤ r ∧ r < (workerRange n W i).2 := by
  obtain ⟨hq, hlo, _⟩ := tdiv_facts n W hn hW
  by_cases hlast : (W - 1) * Int.tdiv n W ≤ r
  · refine ⟨W - 1, by omega, by omega, ?_, ?_⟩
    · rw [workerRange_fst]; exact hlast
    · rw [workerRange_snd]; simpa using hrn
  · have hlt : r < (W - 1) * Int.tdiv n W := by omega
    have hqpos : 0 < Int.tdiv n W := by
      rcases lt_or_eq_of_le hq with h | h
      · exact h
      · rw [← h] at hlt; simp at hlt; omega
    have hd0 : 0 ≤ r / Int.tdiv n W := Int.ediv_nonneg hr0 hq
    have hdm := Int.emod_add_ediv r (Int.tdiv n W)
    have hm0 := Int.emod_nonneg r (show Int.tdiv n W ≠ 0 by omega)
    have hm1 := Int.emod_lt_of_pos r hqpos
    have hcomm : Int.tdiv n W * (r / Int.tdiv n W) = r / Int.tdiv n W * Int.tdiv n W := by ring
    have hdW : r / Int.tdiv n W < W - 1 := by
      by_contra hc
      have h5 : (W - 1) * Int.tdiv n W ≤ r / Int.tdiv n W * Int.tdiv n W :=
        Int.mul_le_mul_of_nonneg_right (by omega) hq
      omega
    refine ⟨r / Int.tdiv n W, hd0, by omega, ?_, ?_⟩
    · rw [workerRange_fst]; omega
    · rw [workerRange_snd, if_neg (by omega)]; omega

theorem workerRange_unique (n W r i k : Int) (hn : 0 ≤ n) (hW : 1 ≤ W)
    (hkW : k < W) (hik : i < k)
    (hi2 : r < (workerRange n W i).2) (hk1 : (workerRange n W k).1 ≤ r) : False := by
  obtain ⟨hq, _, _⟩ := tdiv_facts n W hn hW
  rw [workerRange_fst] at hk1
  rw [workerRange_snd, if_neg (by omega)] at hi2
  have h3 : (i + 1) * Int.tdiv n W ≤ k * Int.tdiv n W :=
    Int.mul_le_mul_of_nonneg_right (by omega) hq
  have h4 : (i + 1) * Int.tdiv n W = i * Int.tdiv n W + Int.tdiv n W := by ring
  omega

/-- C1: for every matrix dimension n ≥ 0 and worker count W ≥ 1 the row ranges handed to the
W workers spawned by matrixMultiplyThreadPool partition [0, n): there are exactly W ranges,
every row index r with 0 ≤ r < n lies in the range of exactly one worker, and no range holds
an index outside [0, n). -/
theorem workerRanges_partition (n W : Int) (hn : 0 ≤ n) (hW : 1 ≤ W) :
    (workerRanges n W).length = W.toNat ∧
    (∀ r : Int, 0 ≤ r → r < n →
      ∃! i : Nat, ∃ t : Int × Int, (workerRanges n W)[i]? = some t ∧ t.1 ≤ r ∧ r < t.2) ∧
    (∀ (i : Nat) (t : Int × Int) (r : Int),
      (workerRanges n W)[i]? = some t → t.1 ≤ r → r < t.2 → 0 ≤ r ∧ r < n) := by
  refine ⟨workerRanges_length n W, ?_, ?_⟩
  · intro r hr0 hrn
    obtain ⟨i, hi0, hiW, h1, h2⟩ := workerRange_exists n W r hn hW hr0 hrn
    have hcast : ((i.toNat : Nat) : Int) = i := Int.toNat_of_nonneg hi0
    refine ⟨i.toNat, ⟨workerRange n W i, ?_, h1, h2⟩, ?_⟩
    · rw [workerRanges_getElem?, if_pos (by omega), hcast]
    · rintro k ⟨t, hk, hk1, hk2⟩
      rw [workerRanges_getElem?] at hk
      by_cases hkW : k < W.toNat
      · rw [if_pos hkW] at hk
        cases hk
        rcases Nat.lt_trichotomy k i.toNat with hlt | heq | hgt
        · exact (workerRange_unique n W r k i hn hW hiW (by omega) hk2 h1).elim
        · exact heq
        · exact (workerRange_unique n W r i k hn hW (by omega) (by omega) h2 hk1).elim
      · rw [if_neg hkW] at hk
        cases hk
  · intro i t r hi h1 h2
    rw [workerRanges_getElem?] at hi
    by_cases hiW : i < W.toNat
    · rw [if_pos hiW] at hi
      cases hi
      exact workerRange_inside n W i r hn hW (by omega) (by omega) h1 h2
    · rw [if_neg hiW] at hi
      cases hi

theorem workerRanges_partition_witness :
    (0 : Int) ≤ 5 ∧ (1 : Int) ≤ 2 ∧
    ((workerRanges 5 2).length = (2 : Int).toNat ∧
    (∀ r : Int, 0 ≤ r → r < 5 →
      ∃! i : Nat, ∃ t : Int × Int, (workerRanges 5 2)[i]? = some t ∧ t.1 ≤ r ∧ r < t.2) ∧
    (∀ (i : Nat) (t : Int × Int) (r : Int),
      (workerRanges 5 2)[i]? = some t → t.1 ≤ r → r < t.2 → 0 ≤ r ∧ r < 5)) :=
  ⟨by decide, by decide, workerRanges_partition 5 2 (by decide) (by decide)⟩

theorem matrixMultiplyPartial_empty {α : Type} [Zero α] [Add α] [Mul α]
    (A B C : Mat α) (s : Int) : matrixMultiplyPartial A B C s s = some C := by
  simp [matrixMultiplyPartial, intRange]

/-- C4: with rowsPerThread = n / W (integer division), worker i < W-1 is handed exactly the
rows [i*rowsPerThread, (i+1)*rowsPerThread) and the last worker W-1 the rows
[(W-1)*rowsPerThread, n); every non-last worker gets n / W rows and the last worker gets
n / W + (n mod W) rows (the sign of n plays no role in these identities, so n ≥ 0 is not
assumed). -/
theorem workerRanges_boundaries (n W : Int) (hW : 1 ≤ W) :
    (∀ i : Nat, (i : Int) < W - 1 →
      (workerRanges n W)[i]? = some ((i : Int) * Int.tdiv n W, ((i : Int) + 1) * Int.tdiv n W)
      ∧ ((i : Int) + 1) * Int.tdiv n W - (i : Int) * Int.tdiv n W = Int.tdiv n W) ∧
    (workerRanges n W)[(W - 1).toNat]? = some ((W - 1) * Int.tdiv n W, n) ∧
    n - (W - 1) * Int.tdiv n W = Int.tdiv n W + Int.tmod n W := by
  refine ⟨?_, ?_, ?_⟩
  · intro i hi
    refine ⟨?_, by ring⟩
    rw [workerRanges_getElem?, if_pos (by omega)]
    simp only [workerRange]
    rw [if_neg (by omega)]
    congr 2
    ring
  · rw [workerRanges_getElem?, if_pos (by omega)]
    have hcast : (((W - 1).toNat : Nat) : Int) = W - 1 := Int.toNat_of_nonneg (by omega)
    simp only [workerRange, hcast, if_true]
  · have h := Int.tmod_add_tdiv n W
    have h2 : (W - 1) * Int.tdiv n W = W * Int.tdiv n W - Int.tdiv n W := by ring
    omega

theorem workerRanges_boundaries_witness :
    (1 : Int) ≤ 2 ∧ Int.tdiv 5 2 = 2 ∧ workerRanges 5 2 = [(0, 2), (2, 5)] ∧
    ((∀ i : Nat, (i : Int) < 2 - 1 →
      (workerRanges 5 2)[i]? = some ((i : Int) * Int.tdiv 5 2, ((i : Int) + 1) * Int.tdiv 5 2)
      ∧ ((i : Int) + 1) * Int.tdiv 5 2 - (i : Int) * Int.tdiv 5 2 = Int.tdiv 5 2) ∧
    (workerRanges 5 2)[((2 : Int) - 1).toNat]? = some ((2 - 1) * Int.tdiv 5 2, 5) ∧
    (5 : Int) - (2 - 1) * Int.tdiv 5 2 = Int.tdiv 5 2 + Int.tmod 5 2) :=
  ⟨by decide, by decide, by decide, workerRanges_boundaries 5 2 (by decide)⟩

/-- C5: for every n ≥ 0 and worker count W > n, every worker of matrixMultiplyThreadPool has
startRow ≤ endRow, every worker other than the last has startRow = endRow, and
matrixMultiplyPartial on an empty range (startRow = endRow) returns C unchanged without
error. -/
theorem workerRanges_more_workers_than_rows (n W : Int) (hn : 0 ≤ n) (hW : n < W) :
    (∀ (i : Nat) (t : Int × Int), (workerRanges n W)[i]? = some t →
      t.1 ≤ t.2 ∧ ((i : Int) ≠ W - 1 → t.1 = t.2)) ∧
    (∀ (α : Type) (_ : Zero α) (_ : Add α) (_ : Mul α) (A B C : Mat α) (s : Int),
      matrixMultiplyPartial A B C s s = some C) := by
  have hq : Int.tdiv n W = 0 := Int.tdiv_eq_zero_of_lt hn hW
  refine ⟨?_, ?_⟩
  · intro i t hi
    rw [workerRanges_getElem?] at hi
    by_cases hiW : i < W.toNat
    · rw [if_pos hiW] at hi
      cases hi
      rw [workerRange_fst, workerRange_snd, hq]
      refine ⟨?_, ?_⟩
      · by_cases hl : (i : Int) = W - 1
        · simpa [hl] using hn
        · simp [hl]
      · intro hl
        simp [hl]
    · rw [if_neg hiW] at hi
      cases hi
  · intro α _ _ _ A B C s
    exact matrixMultiplyPartial_empty A B C s

theorem workerRanges_more_workers_than_rows_witness :
    (0 : Int) ≤ 2 ∧ (2 : Int) < 3 ∧ workerRanges 2 3 = [(0, 0), (0, 0), (0, 2)] ∧
    ((∀ (i : Nat) (t : Int × Int), (workerRanges 2 3)[i]? = some t →
      t.1 ≤ t.2 ∧ ((i : Int) ≠ 3 - 1 → t.1 = t.2)) ∧
    (∀ (α : Type) (_ : Zero α) (_ : Add α) (_ : Mul α) (A B C : Mat α) (s : Int),
      matrixMultiplyPartial A B C s s = some C)) :=
  ⟨by decide, by decide, by decide, workerRanges_more_workers_than_rows 2 3 (by decide) (by decide)⟩

/-! ## The multiply -/

theorem mem_intRange (lo hi x : Int) : x ∈ intRange lo hi ↔ lo ≤ x ∧ x < hi := by
  unfold intRange
  simp only [List.mem_map, List.mem_range]
  constructor
  · rintro ⟨t, ht, rfl⟩
    omega
  · rintro ⟨h1, h2⟩
    exact ⟨(x - lo).toNat, by omega, by omega⟩

theorem readCell_of_getElem? {α : Type} (M : Mat α) (i j : Nat) (row : List α) (c : α)
    (hM : M[i]? = some row) (hr : row[j]? = some c) : readCell M (i : Int) (j : Int) = some c := by
  have h : ¬ ((i : Int) < 0 ∨ (j : Int) < 0) := by omega
  simp [readCell, h, hM, hr]

theorem writeCell_of_getElem? {α : Type} (M : Mat α) (i j : Nat) (row : List α) (v : α)
    (hM : M[i]? = some row) (hj : j < row.length) :
    writeCell M (i : Int) (j : Int) v = some (M.set i (row.set j v)) := by
  have h : ¬ ((i : Int) < 0 ∨ (j : Int) < 0) := by omega
  simp [writeCell, h, hM, hj]

theorem IsSquare.getElem? {α : Type} {n : Nat} {M : Mat α} (hM : IsSquare n M) {i : Nat}
    (hi : i < n) : ∃ row, M[i]? = some row ∧ row.length = n := by
  have hlt : i < M.length := by rw [hM.1]; exact hi
  exact ⟨M[i], List.getElem?_eq_getElem hlt, hM.2 _ (List.getElem_mem hlt)⟩

theorem entry_of_getElem? {α : Type} [Zero α] (M : Mat α) (i k : Nat) (row : List α) (c : α)
    (hM : M[i]? = some row) (hr : row[k]? = some c) : entry M i k = c := by
  simp [entry, List.getD_eq_getElem?_getD, hM, hr]

theorem readCell_square {α : Type} [Zero α] {n : Nat} {M : Mat α} (hM : IsSquare n M)
    {i k : Nat} (hi : i < n) (hk : k < n) :
    readCell M (i : Int) (k : Int) = some (entry M i k) := by
  obtain ⟨row, hrow, hlen⟩ := hM.getElem? hi
  have hk2 : k < row.length := by rw [hlen]; exact hk
  have hr : row[k]? = some row[k] := List.getElem?_eq_getElem hk2
  rw [readCell_of_getElem? M i k row _ hrow hr, entry_of_getElem? M i k row _ hrow hr]

theorem set_set_row {α : Type} (C : Mat α) (i : Nat) (r1 r2 : List α) :
    (C.set i r1).set i r2 = C.set i r2 := List.set_set r1 r2 C i

theorem getElem?_set_self_of_some {α : Type} (l : List α) (i : Nat) (x y : α)
    (h : l[i]? = some x) : (l.set i y)[i]? = some y := by
  have hlt : i < l.length := by
    by_contra hc
    rw [List.getElem?_eq_none (by omega)] at h
    cases h
  simp [List.getElem?_set, hlt]

theorem set_eq_self_of_some {α : Type} (l : List α) (i : Nat) (x : α)
    (h : l[i]? = some x) : l.set i x = l := by
  apply List.ext_getElem?
  intro t
  rw [List.getElem?_set]
  by_cases hit : i = t
  · subst hit
    have hlt : i < l.length := by
      by_contra hc
      rw [List.getElem?_eq_none (by omega)] at h
      cases h
    simp [hlt, h]
  · simp [hit]

/-- The `k` loop adds the products to the cell in the order of the list. -/
theorem innerLoop_eq {α : Type} [Zero α] [Add α] [Mul α] {n : Nat} {A B : Mat α}
    (hA : IsSquare n A) (hB : IsSquare n B) {i j : Nat} (hi : i < n) (hj : j < n) :
    ∀ (ks : List Int), (∀ k ∈ ks, 0 ≤ k ∧ k < (n : Int)) →
    ∀ (C : Mat α) (row : List α) (c : α), C[i]? = some row → row[j]? = some c →
      ks.foldlM (innerStep A B (i : Int) (j : Int)) C
        = some (C.set i (row.set j
            (ks.foldl (fun acc k => acc + entry A i k.toNat * entry B k.toNat j) c))) := by
  intro ks
  induction ks with
  | nil =>
    intro _ C row c hC hr
    simp only [List.foldlM_nil, List.foldl_nil]
    rw [set_eq_self_of_some row j c hr, set_eq_self_of_some C i row hC]
    rfl
  | cons k ks ih =>
    intro hks C row c hC hr
    have hk := hks k (List.mem_cons_self k ks)
    have hkn : k.toNat < n := by omega
    have hkc : ((k.toNat : Nat) : Int) = k := Int.toNat_of_nonneg hk.1
    have hjlt : j < row.length := by
      by_contra hc
      rw [List.getElem?_eq_none (by omega)] at hr
      cases hr
    have hstep : innerStep A B (i : Int) (j : Int) C k
        = some (C.set i (row.set j (c + entry A i k.toNat * entry B k.toNat j))) := by
      have hra := readCell_square hA hi hkn
      have hrb := readCell_square hB hkn hj
      rw [hkc] at hra hrb
      simp only [innerStep, readCell_of_getElem? C i j row c hC hr, hra, hrb,
        Option.bind_eq_bind, Option.some_bind]
      exact writeCell_of_getElem? C i j row _ hC hjlt
    rw [List.foldlM_cons, hstep]
    simp only [Option.bind_eq_bind, Option.some_bind, List.foldl_cons]
    rw [ih (fun k hk => hks k (List.mem_cons_of_mem _ hk)) _ (row.set j _) _
      (getElem?_set_self_of_some C i row _ hC) (getElem?_set_self_of_some row j c _ hr)]
    rw [set_set_row, List.set_set]

theorem overwrite_length {β : Type} (f : Nat → β) (xs : List Nat) :
    ∀ l : List β, (overwrite f xs l).length = l.length := by
  induction xs with
  | nil => intro l; rfl
  | cons x xs ih =>
    intro l
    show (overwrite f xs (l.set x (f x))).length = l.length
    rw [ih, List.length_set]

theorem overwrite_getElem? {β : Type} (f : Nat → β) (xs : List Nat) :
    ∀ (l : List β) (t : Nat), (overwrite f xs l)[t]?
      = if t ∈ xs ∧ t < l.length then some (f t) else l[t]? := by
  induction xs with
  | nil => intro l t; simp [overwrite]
  | cons x xs ih =>
    intro l t
    show (overwrite f xs (l.set x (f x)))[t]? = _
    rw [ih, List.length_set, List.getElem?_set]
    by_cases htl : t < l.length
    · by_cases hmem : t ∈ xs
      · simp [hmem, htl]
      · by_cases hx : x = t
        · subst hx; simp [hmem, htl]
        · have hx2 : ¬ t = x := fun h => hx h.symm
          simp [hmem, htl, hx, hx2]
    · have hnone : l[t]? = none := List.getElem?_eq_none (by omega)
      by_cases hx : x = t
      · subst hx; simp [htl, hnone]
      · simp [htl, hx]

theorem overwrite_all {β : Type} (f : Nat → β) (n : Nat) (l : List β) (hl : l.length = n) :
    overwrite f (List.range n) l = (List.range n).map f := by
  apply List.ext_getElem?
  intro t
  rw [overwrite_getElem?, List.getElem?_map]
  by_cases ht : t < n
  · simp [List.getElem?_range ht, hl, ht]
  · have h1 : l[t]? = none := List.getElem?_eq_none (by omega)
    have h2 : (List.range n)[t]? = none := List.getElem?_eq_none (by simp; omega)
    simp [ht, h1, h2]

theorem intRange_zero_map_toNat (n : Nat) : (intRange 0 (n : Int)).map Int.toNat = List.range n := by
  unfold intRange
  rw [List.map_map]
  have h : (Int.toNat ∘ fun (t : Nat) => (0 : Int) + (t : Int)) = id := by
    funext t; simp
  rw [h, Int.sub_zero, Int.toNat_ofNat, List.map_id]

theorem innerLoop_full {α : Type} [Zero α] [Add α] [Mul α] (A B : Mat α) (n i j : Nat) :
    (intRange 0 (n : Int)).foldl
      (fun acc k => acc + entry A i k.toNat * entry B k.toNat j) 0 = dotAscending A B n i j := by
  unfold dotAscending
  rw [← intRange_zero_map_toNat n, List.foldl_map]

theorem cellStep_eq {α : Type} [Zero α] [Add α] [Mul α] {n : Nat} {A B : Mat α}
    (hA : IsSquare n A) (hB : IsSquare n B) {i j : Nat} (hi : i < n) (hj : j < n)
    (C : Mat α) (row : List α) (hC : C[i]? = some row) (hlen : row.length = n) :
    cellStep A B (n : Int) (i : Int) C (j : Int)
      = some (C.set i (row.set j (dotAscending A B n i j))) := by
  have hjlt : j < row.length := by omega
  have hr : row[j]? = some row[j] := List.getElem?_eq_getElem hjlt
  simp only [cellStep, writeCell_of_getElem? C i j row 0 hC hjlt, Option.bind_eq_bind,
    Option.some_bind]
  rw [innerLoop_eq hA hB hi hj (intRange 0 (n : Int))
    (fun k hk => by rw [mem_intRange] at hk; exact hk) _ (row.set j 0) 0
    (getElem?_set_self_of_some C i row _ hC) (getElem?_set_self_of_some row j _ _ hr)]
  rw [set_set_row, List.set_set, innerLoop_full]

theorem cellLoop_eq {α : Type} [Zero α] [Add α] [Mul α] {n : Nat} {A B : Mat α}
    (hA : IsSquare n A) (hB : IsSquare n B) {i : Nat} (hi : i < n) :
    ∀ (js : List Int), (∀ j ∈ js, 0 ≤ j ∧ j < (n : Int)) →
    ∀ (C : Mat α) (row : List α), C[i]? = some row → row.length = n →
      js.foldlM (cellStep A B (n : Int) (i : Int)) C
        = some (C.set i (overwrite (dotAscending A B n i) (js.map Int.toNat) row)) := by
  intro js
  induction js with
  | nil =>
    intro _ C row hC _
    simp only [List.foldlM_nil, List.map_nil, overwrite, List.foldl_nil]
    rw [set_eq_self_of_some C i row hC]
    rfl
  | cons j js ih =>
    intro hjs C row hC hlen
    have hj := hjs j (List.mem_cons_self j js)
    have hjn : j.toNat < n := by omega
    have hjc : ((j.toNat : Nat) : Int) = j := Int.toNat_of_nonneg hj.1
    have hstep := cellStep_eq hA hB hi hjn C row hC hlen
    rw [hjc] at hstep
    rw [List.foldlM_cons, hstep]
    simp only [Option.bind_eq_bind, Option.some_bind]
    rw [ih (fun k hk => hjs k (List.mem_cons_of_mem _ hk)) _ (row.set j.toNat _)
      (getElem?_set_self_of_some C i row _ hC) (by rw [List.length_set]; exact hlen)]
    rw [set_set_row]
    rfl

theorem rowStep_eq {α : Type} [Zero α] [Add α] [Mul α] {n : Nat} {A B : Mat α}
    (hA : IsSquare n A) (hB : IsSquare n B) {i : Nat} (hi : i < n)
    (C : Mat α) (hC : IsSquare n C) :
    rowStep A B (n : Int) C (i : Int) = some (C.set i (productRow A B n i)) := by
  obtain ⟨row, hrow, hlen⟩ := hC.getElem? hi
  unfold rowStep
  rw [cellLoop_eq hA hB hi (intRange 0 (n : Int))
    (fun k hk => by rw [mem_intRange] at hk; exact hk) C row hrow hlen]
  rw [intRange_zero_map_toNat, overwrite_all _ n row hlen]
  rfl

theorem productRow_length {α : Type} [Zero α] [Add α] [Mul α] (A B : Mat α) (n i : Nat) :
    (productRow A B n i).length = n := by
  simp [productRow]

theorem IsSquare.set {α : Type} {n : Nat} {C : Mat α} (hC : IsSquare n C) (i : Nat)
    (row : List α) (hrow : row.length = n) : IsSquare n (C.set i row) := by
  refine ⟨by rw [List.length_set]; exact hC.1, ?_⟩
  intro r hr
  rcases List.mem_or_eq_of_mem_set hr with h | h
  · exact hC.2 r h
  · rw [h]; exact hrow

theorem IsSquare.overwrite {α : Type} {n : Nat} (f : Nat → List α) (hf : ∀ i, (f i).length = n)
    (xs : List Nat) : ∀ {C : Mat α}, IsSquare n C → IsSquare n (overwrite f xs C) := by
  induction xs with
  | nil => intro C hC; exact hC
  | cons x xs ih =>
    intro C hC
    exact ih (hC.set x (f x) (hf x))

theorem rowLoop_eq {α : Type} [Zero α] [Add α] [Mul α] {n : Nat} {A B : Mat α}
    (hA : IsSquare n A) (hB : IsSquare n B) :
    ∀ (rows : List Int), (∀ i ∈ rows, 0 ≤ i ∧ i < (n : Int)) →
    ∀ (C : Mat α), IsSquare n C →
      rows.foldlM (rowStep A B (n : Int)) C
        = some (overwrite (productRow A B n) (rows.map Int.toNat) C) := by
  intro rows
  induction rows with
  | nil => intro _ C _; rfl
  | cons i rows ih =>
    intro hrows C hC
    have hi := hrows i (List.mem_cons_self i rows)
    have hin : i.toNat < n := by omega
    have hic : ((i.toNat : Nat) : Int) = i := Int.toNat_of_nonneg hi.1
    have hstep := rowStep_eq hA hB hin C hC
    rw [hic] at hstep
    rw [List.foldlM_cons, hstep]
    simp only [Option.bind_eq_bind, Option.some_bind]
    rw [ih (fun k hk => hrows k (List.mem_cons_of_mem _ hk)) _
      (hC.set _ _ (productRow_length A B n _))]
    rfl

/-- The rows a worker with range `[s, e)` writes, as natural numbers. -/
theorem mem_intRange_toNat (s e : Int) (hs : 0 ≤ s) (t : Nat) :
    t ∈ (intRange s e).map Int.toNat ↔ s ≤ (t : Int) ∧ (t : Int) < e := by
  simp only [List.mem_map, mem_intRange]
  constructor
  · rintro ⟨x, ⟨h1, h2⟩, rfl⟩
    omega
  · rintro ⟨h1, h2⟩
    exact ⟨(t : Int), ⟨h1, h2⟩, by simp⟩

theorem matrixMultiplyPartial_eq {α : Type} [Zero α] [Add α] [Mul α] {n : Nat} {A B C : Mat α}
    (hA : IsSquare n A) (hB : IsSquare n B) (hC : IsSquare n C) (s e : Int)
    (hs : 0 ≤ s) (he : e ≤ (n : Int)) :
    matrixMultiplyPartial A B C s e
      = some (overwrite (productRow A B n) ((intRange s e).map Int.toNat) C) := by
  unfold matrixMultiplyPartial
  simp only [hA.1]
  exact rowLoop_eq hA hB (intRange s e)
    (fun i hi => by rw [mem_intRange] at hi; omega) C hC

theorem overwrite_append {β : Type} (f : Nat → β) (xs ys : List Nat) (l : List β) :
    overwrite f (xs ++ ys) l = overwrite f ys (overwrite f xs l) := by
  simp [overwrite, List.foldl_append]

theorem runWorkers_eq {α : Type} [Zero α] [Add α] [Mul α] {n : Nat} {A B : Mat α}
    (hA : IsSquare n A) (hB : IsSquare n B) :
    ∀ (tasks : List (Int × Int)), (∀ t ∈ tasks, 0 ≤ t.1 ∧ t.2 ≤ (n : Int)) →
    ∀ (C : Mat α), IsSquare n C →
      runWorkers A B tasks C = some (overwrite (productRow A B n) (rowsOf tasks) C) := by
  intro tasks
  induction tasks with
  | nil => intro _ C _; rfl
  | cons t tasks ih =>
    intro htasks C hC
    have ht := htasks t (List.mem_cons_self t tasks)
    have hstep := matrixMultiplyPartial_eq hA hB hC t.1 t.2 ht.1 ht.2
    have hC2 : IsSquare n (overwrite (productRow A B n) ((intRange t.1 t.2).map Int.toNat) C) :=
      IsSquare.overwrite _ (productRow_length A B n) _ hC
    have hrec := ih (fun k hk => htasks k (List.mem_cons_of_mem _ hk)) _ hC2
    unfold runWorkers at hrec ⊢
    rw [List.foldlM_cons, hstep]
    simp only [Option.bind_eq_bind, Option.some_bind]
    rw [hrec]
    simp only [rowsOf, List.flatMap_cons, overwrite_append]

theorem mem_rowsOf (tasks : List (Int × Int)) (h : ∀ t ∈ tasks, 0 ≤ t.1) (r : Nat) :
    r ∈ rowsOf tasks ↔ ∃ t ∈ tasks, t.1 ≤ (r : Int) ∧ (r : Int) < t.2 := by
  simp only [rowsOf, List.mem_flatMap]
  constructor
  · rintro ⟨t, ht, hr⟩
    exact ⟨t, ht, (mem_intRange_toNat t.1 t.2 (h t ht) r).1 hr⟩
  · rintro ⟨t, ht, hr⟩
    exact ⟨t, ht, (mem_intRange_toNat t.1 t.2 (h t ht) r).2 hr⟩

theorem productMatrix_getElem? {α : Type} [Zero α] [Add α] [Mul α] (A B : Mat α) (n r : Nat) :
    (productMatrix A B n)[r]? = if r < n then some (productRow A B n r) else none := by
  unfold productMatrix
  rw [List.getElem?_map]
  by_cases hr : r < n
  · simp [List.getElem?_range hr, hr]
  · have h2 : (List.range n)[r]? = none := List.getElem?_eq_none (by simp; omega)
    simp [hr, h2]

theorem overwrite_covering {α : Type} [Zero α] [Add α] [Mul α] {n : Nat} (A B : Mat α)
    {C : Mat α} (hC : IsSquare n C) (rows : List Nat) (hcov : ∀ r, r < n → r ∈ rows) :
    overwrite (productRow A B n) rows C = productMatrix A B n := by
  apply List.ext_getElem?
  intro r
  rw [overwrite_getElem?, productMatrix_getElem?, hC.1]
  by_cases hr : r < n
  · simp [hr, hcov r hr]
  · have h1 : C[r]? = none := List.getElem?_eq_none (by rw [hC.1]; omega)
    simp [hr, h1]

theorem workerRange_bounds (n W i : Int) (hn : 0 ≤ n) (hW : 1 ≤ W) (hi0 : 0 ≤ i) (hiW : i < W) :
    0 ≤ (workerRange n W i).1 ∧ (workerRange n W i).1 ≤ (workerRange n W i).2
      ∧ (workerRange n W i).2 ≤ n := by
  obtain ⟨hq, hlo, _⟩ := tdiv_facts n W hn hW
  rw [workerRange_fst, workerRange_snd]
  have hs : 0 ≤ i * Int.tdiv n W := Int.mul_nonneg hi0 hq
  have h3 : (i + 1) * Int.tdiv n W ≤ W * Int.tdiv n W :=
    Int.mul_le_mul_of_nonneg_right (by omega) hq
  have h4 : (i + 1) * Int.tdiv n W = i * Int.tdiv n W + Int.tdiv n W := by ring
  by_cases hl : i = W - 1
  · rw [if_pos hl]; omega
  · rw [if_neg hl]; omega

theorem mem_workerRanges (n W : Int) (t : Int × Int) :
    t ∈ workerRanges n W ↔ ∃ i : Int, 0 ≤ i ∧ i < W ∧ workerRange n W i = t := by
  simp only [workerRanges, List.mem_map, mem_intRange]
  constructor
  · rintro ⟨i, ⟨h1, h2⟩, h3⟩; exact ⟨i, h1, h2, h3⟩
  · rintro ⟨i, h1, h2, h3⟩; exact ⟨i, ⟨h1, h2⟩, h3⟩

/-- Any run-to-completion schedule of the spawned workers leaves the product in `C`. -/
theorem runWorkers_perm_eq {α : Type} [Zero α] [Add α] [Mul α] {n : Nat} {A B C : Mat α}
    (hA : IsSquare n A) (hB : IsSquare n B) (hC : IsSquare n C) (W : Int) (hW : 1 ≤ W)
    (tasks : List (Int × Int)) (hp : tasks.Perm (workerRanges (n : Int) W)) :
    runWorkers A B tasks C = some (productMatrix A B n) := by
  have hn : (0 : Int) ≤ (n : Int) := Int.ofNat_nonneg n
  have hvalid : ∀ t ∈ tasks, 0 ≤ t.1 ∧ t.2 ≤ (n : Int) := by
    intro t ht
    obtain ⟨i, hi0, hiW, rfl⟩ := (mem_workerRanges _ _ t).1 (hp.mem_iff.1 ht)
    have hb := workerRange_bounds (n : Int) W i hn hW hi0 hiW
    exact ⟨hb.1, hb.2.2⟩
  rw [runWorkers_eq hA hB tasks hvalid C hC]
  congr 1
  apply overwrite_covering A B hC
  intro r hr
  rw [mem_rowsOf tasks (fun t ht => (hvalid t ht).1)]
  obtain ⟨i, hi0, hiW, h1, h2⟩ :=
    workerRange_exists (n : Int) W (r : Int) hn hW (Int.ofNat_nonneg r) (by omega)
  exact ⟨workerRange (n : Int) W i,
    hp.mem_iff.2 ((mem_workerRanges _ _ _).2 ⟨i, hi0, hiW, rfl⟩), h1, h2⟩

theorem threadPool_eq_productMatrix {α : Type} [Zero α] [Add α] [Mul α] {n : Nat}
    {A B C : Mat α} (hA : IsSquare n A) (hB : IsSquare n B) (hC : IsSquare n C)
    (W : Int) (hW : 1 ≤ W) :
    matrixMultiplyThreadPool A B C W = some (productMatrix A B n) := by
  unfold matrixMultiplyThreadPool
  rw [if_neg (by omega), hA.1]
  exact runWorkers_perm_eq hA hB hC W hW _ (List.Perm.refl _)

theorem productMatrix_isSquare {α : Type} [Zero α] [Add α] [Mul α] (A B : Mat α) (n : Nat) :
    IsSquare n (productMatrix A B n) := by
  refine ⟨by simp [productMatrix], ?_⟩
  intro row hrow
  simp only [productMatrix, List.mem_map] at hrow
  obtain ⟨i, _, rfl⟩ := hrow
  exact productRow_length A B n i

theorem productMatrix_readCell {α : Type} [Zero α] [Add α] [Mul α] (A B : Mat α) (n i j : Nat)
    (hi : i < n) (hj : j < n) :
    readCell (productMatrix A B n) (i : Int) (j : Int) = some (dotAscending A B n i j) := by
  apply readCell_of_getElem? _ i j (productRow A B n i)
  · rw [productMatrix_getElem?, if_pos hi]
  · unfold productRow
    rw [List.getElem?_map, List.getElem?_range hj]
    rfl

/-- C2: for n-by-n inputs A, B, an n-by-n output C and a worker count W ≥ 1,
matrixMultiplyThreadPool returns, and the matrix it leaves in C has in every cell (i, j),
0 ≤ i, j < n, the sum over k = 0..n-1, added in ascending k starting from 0, of
A[i][k] * B[k][j]; the same matrix results when the workers run to completion in any other
order, for every other worker count W' ≥ 1 and for every other initial content of C. -/
theorem matrixMultiplyThreadPool_product {α : Type} [Zero α] [Add α] [Mul α] (n : Nat)
    (A B C : Mat α) (hA : IsSquare n A) (hB : IsSquare n B) (hC : IsSquare n C)
    (W : Int) (hW : 1 ≤ W) :
    ∃ R : Mat α, matrixMultiplyThreadPool A B C W = some R ∧ IsSquare n R ∧
      (∀ i j : Nat, i < n → j < n →
        readCell R (i : Int) (j : Int)
          = some ((List.range n).foldl (fun acc k => acc + entry A i k * entry B k j) 0)) ∧
      (∀ tasks : List (Int × Int), tasks.Perm (workerRanges (A.length : Int) W) →
        runWorkers A B tasks C = some R) ∧
      (∀ (W2 : Int) (C2 : Mat α), 1 ≤ W2 → IsSquare n C2 →
        matrixMultiplyThreadPool A B C2 W2 = some R) := by
  refine ⟨productMatrix A B n, threadPool_eq_productMatrix hA hB hC W hW,
    productMatrix_isSquare A B n, ?_, ?_, ?_⟩
  · intro i j hi hj
    exact productMatrix_readCell A B n i j hi hj
  · intro tasks hp
    rw [hA.1] at hp
    exact runWorkers_perm_eq hA hB hC W hW tasks hp
  · intro W2 C2 hW2 hC2
    exact threadPool_eq_productMatrix hA hB hC2 W2 hW2

theorem matrixMultiplyThreadPool_product_witness :
    IsSquare 2 ([[1, 2], [3, 4]] : Mat Int) ∧ IsSquare 2 ([[5, 6], [7, 8]] : Mat Int) ∧
    IsSquare 2 ([[9, 9], [9, 9]] : Mat Int) ∧ (1 : Int) ≤ 2 ∧
    matrixMultiplyThreadPool ([[1, 2], [3, 4]] : Mat Int) [[5, 6], [7, 8]] [[9, 9], [9, 9]] 2
      = some [[19, 22], [43, 50]] ∧
    ∃ R : Mat Int,
      matrixMultiplyThreadPool ([[1, 2], [3, 4]] : Mat Int) [[5, 6], [7, 8]] [[9, 9], [9, 9]] 2
        = some R ∧ IsSquare 2 R ∧
      (∀ i j : Nat, i < 2 → j < 2 →
        readCell R (i : Int) (j : Int)
          = some ((List.range 2).foldl (fun acc k =>
              acc + entry ([[1, 2], [3, 4]] : Mat Int) i k * entry [[5, 6], [7, 8]] k j) 0)) ∧
      (∀ tasks : List (Int × Int),
        tasks.Perm (workerRanges ((([[1, 2], [3, 4]] : Mat Int).length : Nat) : Int) 2) →
        runWorkers ([[1, 2], [3, 4]] : Mat Int) [[5, 6], [7, 8]] tasks [[9, 9], [9, 9]] = some R) ∧
      (∀ (W2 : Int) (C2 : Mat Int), 1 ≤ W2 → IsSquare 2 C2 →
        matrixMultiplyThreadPool ([[1, 2], [3, 4]] : Mat Int) [[5, 6], [7, 8]] C2 W2 = some R) :=
  ⟨by decide, by decide, by decide, by decide, by decide,
    matrixMultiplyThreadPool_product 2 [[1, 2], [3, 4]] [[5, 6], [7, 8]] [[9, 9], [9, 9]]
      (by decide) (by decide) (by decide) 2 (by decide)⟩

/-- C9: on n-by-n matrices and a range 0 ≤ startRow, endRow ≤ n, matrixMultiplyPartial
returns and changes only rows startRow..endRow-1 of C: every other row of C is unchanged,
and the new rows inside the range are the same whatever C held before.  Two such calls give
the same C in either order.  (A and B are `const` references: the embedding takes them as
values and returns only C.  Neither startRow ≤ endRow nor disjointness is needed for these
facts in the run-to-completion model: a range with endRow < startRow is empty, and a row
written twice gets the same content both times.) -/
theorem matrixMultiplyPartial_frame {α : Type} [Zero α] [Add α] [Mul α] (n : Nat)
    (A B C : Mat α) (hA : IsSquare n A) (hB : IsSquare n B) (hC : IsSquare n C)
    (startRow endRow : Int) (hs : 0 ≤ startRow) (he : endRow ≤ (n : Int)) :
    ∃ R : Mat α, matrixMultiplyPartial A B C startRow endRow = some R ∧ IsSquare n R ∧
      (∀ r : Nat, ¬ (startRow ≤ (r : Int) ∧ (r : Int) < endRow) → R[r]? = C[r]?) ∧
      (∀ D : Mat α, IsSquare n D → ∃ S : Mat α,
        matrixMultiplyPartial A B D startRow endRow = some S ∧
        ∀ r : Nat, startRow ≤ (r : Int) → (r : Int) < endRow → S[r]? = R[r]?) ∧
      (∀ s2 e2 : Int, 0 ≤ s2 → e2 ≤ (n : Int) →
        ∃ T : Mat α,
          (matrixMultiplyPartial A B C startRow endRow).bind
            (fun X => matrixMultiplyPartial A B X s2 e2) = some T ∧
          (matrixMultiplyPartial A B C s2 e2).bind
            (fun X => matrixMultiplyPartial A B X startRow endRow) = some T) := by
  have hsq : ∀ (X : Mat α) (rows : List Nat), IsSquare n X →
      IsSquare n (overwrite (productRow A B n) rows X) :=
    fun X rows hX => IsSquare.overwrite _ (productRow_length A B n) rows hX
  refine ⟨_, matrixMultiplyPartial_eq hA hB hC startRow endRow hs he, hsq _ _ hC, ?_, ?_, ?_⟩
  · intro r hr
    have hmem : ¬ r ∈ (intRange startRow endRow).map Int.toNat :=
      fun h => hr ((mem_intRange_toNat startRow endRow hs r).1 h)
    rw [overwrite_getElem?]
    simp [hmem]
  · intro D hD
    refine ⟨_, matrixMultiplyPartial_eq hA hB hD startRow endRow hs he, ?_⟩
    intro r h1 h2
    have hmem := (mem_intRange_toNat startRow endRow hs r).2 ⟨h1, h2⟩
    have hrn : r < n := by omega
    rw [overwrite_getElem?, overwrite_getElem?, hC.1, hD.1]
    simp [hmem, hrn]
  · intro s2 e2 hs2 he2
    refine ⟨overwrite (productRow A B n) ((intRange s2 e2).map Int.toNat)
      (overwrite (productRow A B n) ((intRange startRow endRow).map Int.toNat) C), ?_, ?_⟩
    · rw [matrixMultiplyPartial_eq hA hB hC startRow endRow hs he]
      simp only [Option.some_bind]
      exact matrixMultiplyPartial_eq hA hB (hsq _ _ hC) s2 e2 hs2 he2
    · rw [matrixMultiplyPartial_eq hA hB hC s2 e2 hs2 he2]
      simp only [Option.some_bind]
      rw [matrixMultiplyPartial_eq hA hB (hsq _ _ hC) startRow endRow hs he]
      congr 1
      apply List.ext_getElem?
      intro r
      simp only [overwrite_getElem?, overwrite_length]
      by_cases h1 : r ∈ (intRange startRow endRow).map Int.toNat <;>
        by_cases h2 : r ∈ (intRange s2 e2).map Int.toNat <;>
        by_cases h3 : r < C.length <;> simp [h1, h2, h3]

theorem matrixMultiplyPartial_frame_witness :
    IsSquare 2 ([[1, 2], [3, 4]] : Mat Int) ∧ IsSquare 2 ([[5, 6], [7, 8]] : Mat Int) ∧
    IsSquare 2 ([[9, 9], [9, 9]] : Mat Int) ∧ (0 : Int) ≤ 1 ∧ (2 : Int) ≤ ((2 : Nat) : Int) ∧
    matrixMultiplyPartial ([[1, 2], [3, 4]] : Mat Int) [[5, 6], [7, 8]] [[9, 9], [9, 9]] 1 2
      = some [[9, 9], [43, 50]] ∧
    ∃ R : Mat Int,
      matrixMultiplyPartial ([[1, 2], [3, 4]] : Mat Int) [[5, 6], [7, 8]] [[9, 9], [9, 9]] 1 2
        = some R ∧ IsSquare 2 R ∧
      (∀ r : Nat, ¬ ((1 : Int) ≤ (r : Int) ∧ (r : Int) < 2) →
        R[r]? = ([[9, 9], [9, 9]] : Mat Int)[r]?) ∧
      (∀ D : Mat Int, IsSquare 2 D → ∃ S : Mat Int,
        matrixMultiplyPartial ([[1, 2], [3, 4]] : Mat Int) [[5, 6], [7, 8]] D 1 2 = some S ∧
        ∀ r : Nat, (1 : Int) ≤ (r : Int) → (r : Int) < 2 → S[r]? = R[r]?) ∧
      (∀ s2 e2 : Int, 0 ≤ s2 → e2 ≤ ((2 : Nat) : Int) →
        ∃ T : Mat Int,
          (matrixMultiplyPartial ([[1, 2], [3, 4]] : Mat Int) [[5, 6], [7, 8]]
              [[9, 9], [9, 9]] 1 2).bind
            (fun X => matrixMultiplyPartial ([[1, 2], [3, 4]] : Mat Int) [[5, 6], [7, 8]] X s2 e2)
              = some T ∧
          (matrixMultiplyPartial ([[1, 2], [3, 4]] : Mat Int) [[5, 6], [7, 8]]
              [[9, 9], [9, 9]] s2 e2).bind
            (fun X => matrixMultiplyPartial ([[1, 2], [3, 4]] : Mat Int) [[5, 6], [7, 8]] X 1 2)
              = some T) :=
  ⟨by decide, by decide, by decide, by decide, by decide, by decide,
    matrixMultiplyPartial_frame 2 [[1, 2], [3, 4]] [[5, 6], [7, 8]] [[9, 9], [9, 9]]
      (by decide) (by decide) (by decide) 1 2 (by decide) (by decide)⟩

theorem constMatrix_isSquare {α : Type} (n : Nat) (v : α) : IsSquare n (constMatrix n v) := by
  refine ⟨by simp [constMatrix], ?_⟩
  intro row hrow
  rw [constMatrix, List.mem_replicate] at hrow
  rw [hrow.2, List.length_replicate]

theorem entry_constMatrix {α : Type} [Zero α] (n : Nat) (v : α) (i k : Nat) (hi : i < n)
    (hk : k < n) : entry (constMatrix n v) i k = v := by
  apply entry_of_getElem? _ i k (List.replicate n v)
  · simp [constMatrix, List.getElem?_replicate, hi]
  · simp [List.getElem?_replicate, hk]

theorem foldl_ones {α : Type} [Semiring α] (n i j : Nat) (hi : i < n) (hj : j < n) :
    ∀ m : Nat, m ≤ n →
      (List.range m).foldl
        (fun acc k => acc + entry (constMatrix n (1 : α)) i k * entry (constMatrix n (1 : α)) k j) 0
        = (m : α) := by
  intro m
  induction m with
  | zero => intro _; simp
  | succ m ih =>
    intro hm
    rw [List.range_succ, List.foldl_append, ih (by omega)]
    simp only [List.foldl_cons, List.foldl_nil]
    rw [entry_constMatrix n 1 i m hi (by omega), entry_constMatrix n 1 m j (by omega) hj]
    simp

theorem productMatrix_ones {α : Type} [Semiring α] (n : Nat) :
    productMatrix (constMatrix n (1 : α)) (constMatrix n (1 : α)) n = constMatrix n (n : α) := by
  have hrow : ∀ i, i < n →
      productRow (constMatrix n (1 : α)) (constMatrix n (1 : α)) n i = List.replicate n (n : α) := by
    intro i hi
    apply List.ext_getElem?
    intro j
    unfold productRow
    rw [List.getElem?_map, List.getElem?_replicate]
    by_cases hj : j < n
    · rw [List.getElem?_range hj, if_pos hj]
      simp only [Option.map_some']
      exact congrArg some (foldl_ones n i j hi hj n (le_refl n))
    · rw [List.getElem?_eq_none (by simp; omega), if_neg hj]
      rfl
  apply List.ext_getElem?
  intro i
  have hconst : (constMatrix n (n : α))[i]?
      = if i < n then some (List.replicate n (n : α)) else none := by
    unfold constMatrix
    rw [List.getElem?_replicate]
  rw [productMatrix_getElem?, hconst]
  by_cases hi : i < n
  · rw [if_pos hi, if_pos hi, hrow i hi]
  · rw [if_neg hi, if_neg hi]

/-- C3: for every size n and worker count W ≥ 1, with A and B the n-by-n matrices filled
with 1 and C the n-by-n zero matrix (the matrices `benchmark` builds), every cell of C equals
n after the multiply; the arithmetic is exact (any semiring). -/
theorem matrixMultiplyThreadPool_ones {α : Type} [Semiring α] (n : Nat) (W : Int) (hW : 1 ≤ W) :
    matrixMultiplyThreadPool (constMatrix n (1 : α)) (constMatrix n (1 : α))
      (constMatrix n (0 : α)) W = some (constMatrix n (n : α)) := by
  rw [threadPool_eq_productMatrix (constMatrix_isSquare n 1) (constMatrix_isSquare n 1)
    (constMatrix_isSquare n 0) W hW, productMatrix_ones]

theorem matrixMultiplyThreadPool_ones_witness :
    (1 : Int) ≤ 1 ∧ workerRanges 100 1 = [(0, 100)] ∧
    matrixMultiplyThreadPool (constMatrix 100 (1 : Int)) (constMatrix 100 (1 : Int))
      (constMatrix 100 (0 : Int)) 1 = some (constMatrix 100 (100 : Int)) :=
  ⟨by decide, by decide, matrixMultiplyThreadPool_ones 100 1 (by decide)⟩

/-- In a semiring the ascending sum is the usual finite sum. -/
theorem dotAscending_eq_sum {α : Type} [Semiring α] (A B : Mat α) (n i j : Nat) :
    dotAscending A B n i j = ∑ k in Finset.range n, entry A i k * entry B k j := by
  unfold dotAscending
  induction n with
  | zero => simp
  | succ m ih =>
    rw [List.range_succ, List.foldl_append, ih, Finset.sum_range_succ]
    rfl

/-- In a semiring `productMatrix` is the matrix product of Mathlib. -/
theorem productMatrix_eq_mul {α : Type} [Semiring α] (A B : Mat α) (n : Nat) :
    (Matrix.of fun (i j : Fin n) => entry (productMatrix A B n) i j)
      = (Matrix.of fun (i k : Fin n) => entry A i k) * (Matrix.of fun (k j : Fin n) => entry B k j) := by
  ext i j
  rw [Matrix.mul_apply]
  simp only [Matrix.of_apply]
  have hcell : entry (productMatrix A B n) i j = dotAscending A B n i j := by
    apply entry_of_getElem? _ _ _ (productRow A B n i)
    · rw [productMatrix_getElem?, if_pos i.isLt]
    · unfold productRow
      rw [List.getElem?_map, List.getElem?_range j.isLt]
      rfl
  rw [hcell, dotAscending_eq_sum, Finset.sum_range]

/-! ## The driver -/

theorem foldlM_eq_some_foldl {σ β : Type} (f : σ → β → Option σ) (g : σ → β → σ) :
    ∀ (l : List β), (∀ x ∈ l, ∀ s, f s x = some (g s x)) →
      ∀ s, l.foldlM f s = some (l.foldl g s) := by
  intro l
  induction l with
  | nil => intro _ s; rfl
  | cons x l ih =>
    intro h s
    rw [List.foldlM_cons, h x (List.mem_cons_self x l) s]
    simp only [Option.bind_eq_bind, Option.some_bind, List.foldl_cons]
    exact ih (fun y hy => h y (List.mem_cons_of_mem _ hy)) _

theorem benchmark_eq (α : Type) [Zero α] [One α] [Add α] [Mul α] {τ : Type} (env : Env τ)
    (size numThreads : Int) (w : World) (hs : 0 ≤ size) (hT : 1 ≤ numThreads) :
    benchmark α env size numThreads w
      = some (env.elapsed w.benchmarkCalls.length, benchmarkEffect size numThreads w) := by
  unfold benchmark
  simp only [if_neg (not_lt.mpr hs)]
  rw [threadPool_eq_productMatrix (constMatrix_isSquare size.toNat (1 : α))
    (constMatrix_isSquare size.toNat (1 : α)) (constMatrix_isSquare size.toNat (0 : α))
    numThreads hT]
  simp [benchmarkEffect]

theorem sizeStep_eq (α : Type) [Zero α] [One α] [Add α] [Mul α] {τ : Type} (env : Env τ)
    (activeCores : List Int) (numThreads : Int) (w : World) (size : Int)
    (hs : 0 ≤ size) (hT : 1 ≤ numThreads) :
    sizeStep α env activeCores numThreads w size
      = some (sizeEffect env activeCores numThreads w size) := by
  unfold sizeStep
  rw [benchmark_eq α env size numThreads w hs hT]
  rfl

theorem setCpuAffinity_eq {τ : Type} (env : Env τ) (cores : List Int) (w : World) :
    setCpuAffinity env cores w = affinityEffect env cores w := by
  have hset : ∀ (acc : List Int), cores.foldl (fun cpuset core => cpuset ++ [core]) acc
      = acc ++ cores := by
    induction cores with
    | nil => intro acc; simp
    | cons c cs ih => intro acc; simp [ih]
  unfold setCpuAffinity affinityEffect
  simp only [hset, List.nil_append]
  by_cases h : (env.sched_setaffinity w.affinityCalls cores).1 ≠ 0
  · simp only [if_pos h]; rfl
  · simp only [if_neg h, List.append_nil]

theorem sizes_nonneg : ∀ s ∈ sizes, (0 : Int) ≤ s := by decide

theorem threadStep_eq (α : Type) [Zero α] [One α] [Add α] [Mul α] {τ : Type} (env : Env τ)
    (cores : List Int) (coreType : String) (w : World) (numThreads : Int)
    (h1 : 1 ≤ numThreads) (h2 : numThreads ≤ (cores.length : Int)) :
    threadStep α env cores coreType w numThreads
      = some (threadEffect env cores coreType w numThreads) := by
  unfold threadStep firstCores
  rw [if_pos ⟨by omega, by omega⟩]
  simp only [Option.bind_eq_bind, Option.some_bind, setCpuAffinity_eq]
  exact foldlM_eq_some_foldl _ _ sizes
    (fun s hs w => sizeStep_eq α env _ numThreads w s (sizes_nonneg s hs) h1) _

theorem benchmarkCoreType_eq (α : Type) [Zero α] [One α] [Add α] [Mul α] {τ : Type}
    (env : Env τ) (cores : List Int) (coreType : String) (w : World) :
    benchmarkCoreType α env cores coreType w = some (coreTypeEffect env cores coreType w) := by
  unfold benchmarkCoreType coreTypeEffect
  apply foldlM_eq_some_foldl
  intro T hT w
  rw [mem_intRange] at hT
  exact threadStep_eq α env cores coreType w T hT.1 (by omega)

theorem main_eq (α : Type) [Zero α] [One α] [Add α] [Mul α] {τ : Type} (env : Env τ) :
    main α env = some (0, mainEffect env) := by
  unfold main
  simp only [benchmarkCoreType_eq, Option.bind_eq_bind, Option.some_bind]
  rfl

theorem cout_mk (out : List String) (line : String) (err : List String) (a : Nat)
    (b : List (Int × Int)) (s : String) :
    ({ stdout := out, stdoutLine := line, stderr := err, affinityCalls := a,
       benchmarkCalls := b } : World).cout s
      = { stdout := out, stdoutLine := line ++ s, stderr := err, affinityCalls := a,
          benchmarkCalls := b } := rfl

theorem endl_mk (out : List String) (line : String) (err : List String) (a : Nat)
    (b : List (Int × Int)) :
    ({ stdout := out, stdoutLine := line, stderr := err, affinityCalls := a,
       benchmarkCalls := b } : World).endl
      = { stdout := out ++ [line], stdoutLine := "", stderr := err, affinityCalls := a,
          benchmarkCalls := b } := rfl

theorem printCores_eq (cores : List Int) :
    ∀ (out : List String) (line : String) (err : List String) (a : Nat) (b : List (Int × Int)),
      cores.foldl (fun w core => (w.cout (toString core)).cout " ")
        ({ stdout := out, stdoutLine := line, stderr := err, affinityCalls := a,
           benchmarkCalls := b } : World)
      = { stdout := out, stdoutLine := line ++ coresText cores, stderr := err,
          affinityCalls := a, benchmarkCalls := b } := by
  induction cores with
  | nil => intro out line err a b; simp [coresText]
  | cons c cs ih =>
    intro out line err a b
    simp only [List.foldl_cons, cout_mk, ih, coresText, String.append_assoc]

theorem printRecord_eq {τ : Type} (env : Env τ) (activeCores : List Int) (size numThreads : Int)
    (time : τ) (out : List String) (err : List String) (a : Nat) (b : List (Int × Int)) :
    printRecord env activeCores size numThreads time
        { stdout := out, stdoutLine := "", stderr := err, affinityCalls := a,
          benchmarkCalls := b }
      = { stdout := out ++ [(OutLine.record activeCores size numThreads time).render
            env.showDouble],
          stdoutLine := "", stderr := err, affinityCalls := a, benchmarkCalls := b } := by
  simp only [printRecord, cout_mk, endl_mk, printCores_eq, OutLine.render,
    String.append_assoc, String.empty_append]

theorem printHeader_eq {τ : Type} (showDouble : τ → String) (coreType : String)
    (numThreads : Int) (out : List String) (err : List String) (a : Nat)
    (b : List (Int × Int)) :
    printHeader coreType numThreads
        { stdout := out, stdoutLine := "", stderr := err, affinityCalls := a,
          benchmarkCalls := b }
      = { stdout := out ++ [(OutLine.header coreType numThreads : OutLine τ).render showDouble],
          stdoutLine := "", stderr := err, affinityCalls := a, benchmarkCalls := b } := by
  simp only [printHeader, cout_mk, endl_mk, OutLine.render,
    String.append_assoc, String.empty_append]

theorem sizeLoop_eq {τ : Type} (env : Env τ) (activeCores : List Int) (numThreads : Int) :
    ∀ (szs : List Int) (out : List String) (err : List String) (a : Nat)
      (b : List (Int × Int)),
      szs.foldl (sizeEffect env activeCores numThreads)
        { stdout := out, stdoutLine := "", stderr := err, affinityCalls := a,
          benchmarkCalls := b }
      = { stdout := out ++ (recordLines env.elapsed activeCores numThreads b.length szs).map
            (OutLine.render env.showDouble),
          stdoutLine := "", stderr := err, affinityCalls := a,
          benchmarkCalls := b ++ szs.map (fun size => (size, numThreads)) } := by
  intro szs
  induction szs with
  | nil => intro out err a b; simp [recordLines]
  | cons s szs ih =>
    intro out err a b
    simp only [List.foldl_cons, sizeEffect, benchmarkEffect, printRecord_eq, ih, recordLines,
      List.map_cons, List.length_append, List.length_singleton, List.append_assoc,
      List.singleton_append]

theorem threadEffect_eq {τ : Type} (env : Env τ) (cores : List Int) (coreType : String)
    (numThreads : Int) (out : List String) (err : List String) (a : Nat)
    (b : List (Int × Int)) :
    threadEffect env cores coreType
        { stdout := out, stdoutLine := "", stderr := err, affinityCalls := a,
          benchmarkCalls := b } numThreads
      = { stdout := out ++ (OutLine.header coreType numThreads
            :: recordLines env.elapsed (cores.take numThreads.toNat) numThreads b.length
                sizes).map (OutLine.render env.showDouble),
          stdoutLine := "",
          stderr := err ++ affinityError env a (cores.take numThreads.toNat),
          affinityCalls := a + 1,
          benchmarkCalls := b ++ sizes.map (fun size => (size, numThreads)) } := by
  simp only [threadEffect, printHeader_eq env.showDouble, affinityEffect, sizeLoop_eq,
    affinityError, List.map_cons, List.append_assoc, List.singleton_append]

theorem coreTypeLoop_eq {τ : Type} (env : Env τ) (cores : List Int) (coreType : String) :
    ∀ (ts : List Int) (out : List String) (err : List String) (a : Nat)
      (b : List (Int × Int)),
      ts.foldl (threadEffect env cores coreType)
        { stdout := out, stdoutLine := "", stderr := err, affinityCalls := a,
          benchmarkCalls := b }
      = { stdout := out ++ (blockLines env.elapsed cores coreType b.length ts).map
            (OutLine.render env.showDouble),
          stdoutLine := "",
          stderr := err ++ errorLines env cores a ts,
          affinityCalls := a + ts.length,
          benchmarkCalls := b ++ ts.flatMap (fun numThreads =>
            sizes.map (fun size => (size, numThreads))) } := by
  intro ts
  induction ts with
  | nil => intro out err a b; simp [blockLines, errorLines]
  | cons t ts ih =>
    intro out err a b
    simp only [List.foldl_cons, threadEffect_eq, ih, blockLines, errorLines, List.map_cons,
      List.map_append, List.length_append, List.length_map, List.append_assoc,
      List.cons_append, List.flatMap_cons, List.length_cons]
    congr 1
    omega

theorem mainEffect_eq {τ : Type} (env : Env τ) :
    mainEffect env
      = { stdout := (sweepLines env.elapsed).map (OutLine.render env.showDouble),
          stdoutLine := "",
          stderr := sweepErrors env,
          affinityCalls := 8,
          benchmarkCalls := expectedRecords.map (fun r => (r.2.1, r.2.2)) } := by
  have h1 : intRange 1 ((([0, 1, 2, 3] : List Int).length : Int) + 1) = [1, 2, 3, 4] := by decide
  have h2 : intRange 1 ((([4, 5] : List Int).length : Int) + 1) = [1, 2] := by decide
  have h3 : intRange 1 ((([6, 7] : List Int).length : Int) + 1) = [1, 2] := by decide
  unfold mainEffect coreTypeEffect World.init
  rw [h1, h2, h3, coreTypeLoop_eq, coreTypeLoop_eq, coreTypeLoop_eq]
  congr 1
  simp [sweepErrors]

theorem main_result (α : Type) [Zero α] [One α] [Add α] [Mul α] {τ : Type} (env : Env τ) :
    main α env = some (0,
      { stdout := (sweepLines env.elapsed).map (OutLine.render env.showDouble),
        stdoutLine := "",
        stderr := sweepErrors env,
        affinityCalls := 8,
        benchmarkCalls := expectedRecords.map (fun r => (r.2.1, r.2.2)) }) := by
  rw [main_eq, mainEffect_eq]

theorem coreType_result (α : Type) [Zero α] [One α] [Add α] [Mul α] {τ : Type} (env : Env τ)
    (cores : List Int) (coreType : String) :
    benchmarkCoreType α env cores coreType World.init = some
      { stdout := (blockLines env.elapsed cores coreType 0
          (intRange 1 ((cores.length : Int) + 1))).map (OutLine.render env.showDouble),
        stdoutLine := "",
        stderr := errorLines env cores 0 (intRange 1 ((cores.length : Int) + 1)),
        affinityCalls := (intRange 1 ((cores.length : Int) + 1)).length,
        benchmarkCalls := (intRange 1 ((cores.length : Int) + 1)).flatMap (fun numThreads =>
          sizes.map (fun size => (size, numThreads))) } := by
  rw [benchmarkCoreType_eq]
  unfold coreTypeEffect World.init
  rw [coreTypeLoop_eq]
  simp

/-- C6: the result records (active core ids, matrix size, thread count) the program writes
are exactly, for each cluster in the order [0,1,2,3], [4,5], [6,7], for each thread count
T = 1..|c| ascending, for each size 100, 200, ..., 1000 ascending, the record
(first T ids of c, size, T).  In particular benchmarkCoreType on the cluster [0,1,2,3] goes
through T = 1, 2, 3, 4 in order with 10 records per T, and for T = 4 the active cores are the
whole cluster [0,1,2,3]. -/
theorem sweep_records (α : Type) [Zero α] [One α] [Add α] [Mul α] {τ : Type} (env : Env τ) :
    (∃ w : World,
      main α env = some (0, w) ∧
      w.stdout = (sweepLines env.elapsed).map (OutLine.render env.showDouble) ∧
      recordsOf (sweepLines env.elapsed) = expectedRecords) ∧
    expectedRecords.length = 80 ∧
    (∃ w : World,
      benchmarkCoreType α env [0, 1, 2, 3] "high-efficiency (Cortex-A55)" World.init = some w ∧
      w.stdout = (blockLines env.elapsed [0, 1, 2, 3] "high-efficiency (Cortex-A55)" 0
        [1, 2, 3, 4]).map (OutLine.render env.showDouble) ∧
      recordsOf (blockLines env.elapsed [0, 1, 2, 3] "high-efficiency (Cortex-A55)" 0
          [1, 2, 3, 4]) =
        sizes.map (fun size => ([0], size, 1)) ++ sizes.map (fun size => ([0, 1], size, 2))
          ++ sizes.map (fun size => ([0, 1, 2], size, 3))
          ++ sizes.map (fun size => ([0, 1, 2, 3], size, 4))) ∧
    sizes = [100, 200, 300, 400, 500, 600, 700, 800, 900, 1000] := by
  refine ⟨⟨_, main_result α env, rfl, rfl⟩, rfl,
    ⟨_, coreType_result α env [0, 1, 2, 3] "high-efficiency (Cortex-A55)", rfl, rfl⟩, rfl⟩

/-- C7: a failing affinity call is swallowed.  When `sched_setaffinity` reports a failure,
setCpuAffinity appends exactly one message to the error stream, leaves standard output
untouched and returns; and whatever the outcomes of the affinity calls are, main returns
exit code 0 and standard output, hence the sequence of result records, is the same. -/
theorem affinity_failure_swallowed (α : Type) [Zero α] [One α] [Add α] [Mul α] {τ : Type}
    (env : Env τ) :
    (∀ (cores : List Int) (w : World), (env.sched_setaffinity w.affinityCalls cores).1 ≠ 0 →
      setCpuAffinity env cores w =
        { w with
          affinityCalls := w.affinityCalls + 1
          stderr := w.stderr ++ ["Error setting CPU affinity: "
            ++ env.strerror (env.sched_setaffinity w.affinityCalls cores).2] }) ∧
    (∀ (outcomes : Nat → List Int → Int × Nat) (strerror : Nat → String),
      ∃ w w2 : World,
        main α env = some (0, w) ∧
        main α { env with sched_setaffinity := outcomes, strerror := strerror } = some (0, w2) ∧
        w2.stdout = w.stdout ∧
        w.stdout = (sweepLines env.elapsed).map (OutLine.render env.showDouble) ∧
        recordsOf (sweepLines env.elapsed) = expectedRecords) := by
  refine ⟨?_, ?_⟩
  · intro cores w h
    rw [setCpuAffinity_eq]
    unfold affinityEffect
    rw [if_pos h]
  · intro outcomes strerror
    exact ⟨_, _, main_result α env, main_result α _, rfl, rfl, rfl⟩

theorem affinity_failure_swallowed_witness :
    (failingEnv.sched_setaffinity World.init.affinityCalls [0]).1 ≠ 0 ∧
    setCpuAffinity failingEnv [0] World.init =
      { World.init with
        affinityCalls := 1
        stderr := ["Error setting CPU affinity: Invalid argument"] } :=
  ⟨by decide, (affinity_failure_swallowed Int failingEnv).1 [0] World.init (by decide)⟩

set_option maxRecDepth 10000 in
/-- C8, as stated, fails: with every affinity call succeeding and every measurement reading
0, standard output has 88 lines, not the 160 lines of 80 two-line blocks; only 8 of them
are `Benchmarking` lines, and the third line is already the `Cores:` line of size 200. -/
theorem stdout_not_two_line_blocks :
    ∃ w : World, main Int quietEnv = some (0, w) ∧
      w.stdout ≠ (twoLineBlocks quietEnv.elapsed).map (OutLine.render quietEnv.showDouble) ∧
      w.stdout.length = 88 ∧
      ((twoLineBlocks quietEnv.elapsed).map (OutLine.render quietEnv.showDouble)).length = 160 ∧
      w.stdout[2]? = some "Cores: 0 , Size: 200x200, Threads: 1, Time: 0 seconds" ∧
      ((twoLineBlocks quietEnv.elapsed).map (OutLine.render quietEnv.showDouble))[2]?
        = some "Benchmarking high-efficiency (Cortex-A55) cores with 1 threads" := by
  refine ⟨_, main_result Int quietEnv, ?_, rfl, rfl, rfl, rfl⟩
  intro h
  have hlen := congrArg List.length h
  have h88 : ((sweepLines quietEnv.elapsed).map (OutLine.render quietEnv.showDouble)).length
      = 88 := rfl
  have h160 : ((twoLineBlocks quietEnv.elapsed).map (OutLine.render quietEnv.showDouble)).length
      = 160 := rfl
  rw [h88, h160] at hlen
  omega

/-- C8, amended: standard output is, for each pair of a cluster and a thread count T in
sweep order, one line `Benchmarking <cluster-label> cores with <T> threads` followed by ten
lines `Cores: <id> <id> ... , Size: <n>x<n>, Threads: <T>, Time: <seconds> seconds` (each
active core id followed by one space), one per size; the whole run is 8 such blocks, that is
8 `Benchmarking` lines and 80 `Cores:` lines, 88 lines in total. -/
theorem stdout_format (α : Type) [Zero α] [One α] [Add α] [Mul α] {τ : Type} (env : Env τ) :
    ∃ w : World, main α env = some (0, w) ∧
      w.stdout = (sweepLines env.elapsed).map (OutLine.render env.showDouble) ∧
      sweepLines env.elapsed = sweepBlocks.enum.flatMap (fun b =>
        OutLine.header b.2.1 b.2.2.2 ::
          sizes.enum.map (fun s =>
            OutLine.record b.2.2.1 s.2 b.2.2.2 (env.elapsed (10 * b.1 + s.1)))) ∧
      sweepBlocks.length = 8 ∧
      ((sweepLines env.elapsed).filter OutLine.isHeader).length = 8 ∧
      (recordsOf (sweepLines env.elapsed)).length = 80 ∧
      w.stdout.length = 88 ∧
      (∀ (coreType : String) (numThreads : Int),
        (OutLine.header coreType numThreads : OutLine τ).render env.showDouble
          = "Benchmarking " ++ coreType ++ " cores with " ++ toString numThreads ++ " threads") ∧
      (∀ (activeCores : List Int) (size numThreads : Int) (time : τ),
        (OutLine.record activeCores size numThreads time).render env.showDouble
          = "Cores: " ++ coresText activeCores
            ++ ", Size: " ++ toString size ++ "x" ++ toString size
            ++ ", Threads: " ++ toString numThreads
            ++ ", Time: " ++ env.showDouble time ++ " seconds") ∧
      coresText [0, 1, 2, 3] = "0 1 2 3 " ∧
      w.stdout.take 3 =
        ["Benchmarking high-efficiency (Cortex-A55) cores with 1 threads",
         "Cores: 0 , Size: 100x100, Threads: 1, Time: "
           ++ env.showDouble (env.elapsed 0) ++ " seconds",
         "Cores: 0 , Size: 200x200, Threads: 1, Time: "
           ++ env.showDouble (env.elapsed 1) ++ " seconds"] := by
  exact ⟨_, main_result α env, rfl, rfl, rfl, rfl, rfl, rfl, fun _ _ => rfl,
    fun _ _ _ _ => rfl, rfl, rfl⟩

set_option maxRecDepth 100000 in
theorem sweep_calls_bounds :
    ∀ c ∈ expectedRecords.map (fun r => (r.2.1, r.2.2)),
      1 ≤ c.2 ∧ c.2 ≤ 4 ∧ (4 : Int) ≤ 100 ∧ 100 ≤ c.1 ∧ c.2 ≠ 0 ∧ 25 ≤ Int.tdiv c.1 c.2 ∧
      ∀ t ∈ workerRanges c.1 c.2, t.1 < t.2 := by
  decide

theorem sweep_slices_inside :
    ∀ c ∈ clusters, ∀ numThreads ∈ intRange 1 ((c.1.length : Int) + 1),
      numThreads.toNat ≤ c.1.length ∧ firstCores c.1 numThreads = some (c.1.take numThreads.toNat) := by
  decide

/-- C10: in the sweep run by main every call benchmark(size, numThreads), hence every call
of matrixMultiplyThreadPool, has 1 ≤ numThreads ≤ 4 ≤ 100 ≤ size: the division
size / numThreads never divides by zero, rowsPerThread is at least 25, no worker gets an
empty range, and taking the first numThreads core ids never leaves the core list of the
cluster; the run reaches `return 0` without undefined behaviour. -/
theorem sweep_arguments_safe (α : Type) [Zero α] [One α] [Add α] [Mul α] {τ : Type}
    (env : Env τ) :
    ∃ w : World, main α env = some (0, w) ∧
      w.benchmarkCalls.length = 80 ∧
      (∀ c ∈ w.benchmarkCalls,
        1 ≤ c.2 ∧ c.2 ≤ 4 ∧ (4 : Int) ≤ 100 ∧ 100 ≤ c.1 ∧ c.2 ≠ 0 ∧ 25 ≤ Int.tdiv c.1 c.2 ∧
        ∀ t ∈ workerRanges c.1 c.2, t.1 < t.2) ∧
      (∀ c ∈ clusters, ∀ numThreads ∈ intRange 1 ((c.1.length : Int) + 1),
        numThreads.toNat ≤ c.1.length ∧
        firstCores c.1 numThreads = some (c.1.take numThreads.toNat)) :=
  ⟨_, main_result α env, rfl, sweep_calls_bounds, sweep_slices_inside⟩

end MatMul
